import Mathlib

/-!
Verification of the Sigil Find & Replace engine (src/MainUI/FindReplace.cpp).

The C++ source is shallowly embedded: QString values become `List Char`,
`QList<Resource *>` becomes `List Resource` (pointer equality on live
resources becomes value equality of the model records), and the UI-held
settings (search mode, look-where scope, direction, option check boxes)
become plain enumeration/Bool fields, as the spec's design notes direct.
Collaborator capabilities (per-document Searchable, the resource catalog)
are passed in as explicit function arguments.
-/

namespace Sigil

/-- Resource type tags used by FindReplace (Resource::Type in the source);
only the four searched kinds are distinguished, everything else is `other`. -/
inductive RType
  | html
  | css
  | opf
  | ncx
  | other
deriving DecidableEq, Repr

/-- Model of a `Resource *`: identity is the relative path (modelled as a
natural number key) plus the type tag.  `GetRelativePath()` comparisons in
the source become comparisons of `path`. -/
structure Resource where
  path : Nat
  rtype : RType
deriving DecidableEq, Repr

instance : Inhabited Resource := ⟨⟨0, RType.other⟩⟩

/-- The FindReplace::SearchMode enum (order NL, CS, RX as in MDS). -/
inductive SearchMode
  | normal
  | caseSensitive
  | regex
deriving DecidableEq, Repr

/-- The FindReplace::SearchDirection enum (order DN, UP as in DRS). -/
inductive SearchDirection
  | down
  | up
deriving DecidableEq, Repr

/-- The FindReplace::LookWhere enum (order CF, AH, SH, TH, AC, SC, TC, OP,
NX as in TGTS). -/
inductive LookWhere
  | currentFile
  | allHTML
  | selectedHTML
  | tabbedHTML
  | allCSS
  | selectedCSS
  | tabbedCSS
  | opfFile
  | ncxFile
deriving DecidableEq, Repr

namespace FindReplace

/-- FindReplace::isWhereHTML from the source. -/
def isWhereHTML (lw : LookWhere) : Bool :=
  match lw with
  | .allHTML | .selectedHTML | .tabbedHTML => true
  | _ => false

/-- FindReplace::isWhereCSS from the source. -/
def isWhereCSS (lw : LookWhere) : Bool :=
  match lw with
  | .allCSS | .selectedCSS | .tabbedCSS => true
  | _ => false

/-- FindReplace::isWhereSelected from the source. -/
def isWhereSelected (lw : LookWhere) : Bool :=
  match lw with
  | .selectedHTML | .tabbedHTML | .selectedCSS | .tabbedCSS | .opfFile | .ncxFile => true
  | _ => false

/-- Modelled from the spec: isWhereCF is declared in FindReplace.h (not under
src/); per the scope glossary it tests the CurrentFile scope. -/
def isWhereCF (lw : LookWhere) : Bool :=
  match lw with
  | .currentFile => true
  | _ => false

/-- Modelled from the spec: isWhereOPF is declared in FindReplace.h (not under
src/); per the scope glossary it tests the ManifestFile (OPF) scope. -/
def isWhereOPF (lw : LookWhere) : Bool :=
  match lw with
  | .opfFile => true
  | _ => false

/-- Modelled from the spec: isWhereNCX is declared in FindReplace.h (not under
src/); per the scope glossary it tests the NavFile (NCX) scope. -/
def isWhereNCX (lw : LookWhere) : Bool :=
  match lw with
  | .ncxFile => true
  | _ => false

/-- The REGEX_OPTION_UCP constant "(*UCP)". -/
def ucpOpt : List Char := ['(', '*', 'U', 'C', 'P', ')']

/-- The REGEX_OPTION_IGNORE_CASE constant "(?i)". -/
def ignoreCaseOpt : List Char := ['(', '?', 'i', ')']

/-- The REGEX_OPTION_DOT_ALL constant "(?s)". -/
def dotAllOpt : List Char := ['(', '?', 's', ')']

/-- The REGEX_OPTION_MINIMAL_MATCH constant "(?U)". -/
def minimalMatchOpt : List Char := ['(', '?', 'U', ')']

/-- FindReplace::PrependRegexOptionToSearch: insert a regex directive in
front of the search text, except that a leading "(*UCP)" directive stays
first and the new directive goes immediately after it
(`search.mid(REGEX_OPTION_UCP.length())` is `List.drop ucpOpt.length`). -/
def PrependRegexOptionToSearch (opt search : List Char) : List Char :=
  if ucpOpt.isPrefixOf search then
    ucpOpt ++ opt ++ search.drop ucpOpt.length
  else
    opt ++ search

/-- Character class matched by the QRegularExpression pattern "\R":
the Unicode line-separator characters LF, VT, FF, CR, NEL, LS, PS. -/
def isLineSep (c : Char) : Bool :=
  c = '\n' || c = '\x0b' || c = '\x0c' || c = '\r' ||
    c = '\u0085' || c = '\u2028' || c = '\u2029'

/-- Model of `text.replace(QRegularExpression("\\R"), "\n")`: every Unicode
line-separator sequence becomes a single newline; the two-character
sequence CR LF is one match and yields one newline. -/
def normLineSeps : List Char → List Char
  | [] => []
  | '\r' :: '\n' :: rest => '\n' :: normLineSeps rest
  | c :: rest =>
      if isLineSep c then '\n' :: normLineSeps rest else c :: normLineSeps rest

/-- Word characters left untouched by QRegularExpression::escape. -/
def isWordChar (c : Char) : Bool :=
  ('a' ≤ c && c ≤ 'z') || ('A' ≤ c && c ≤ 'Z') || ('0' ≤ c && c ≤ '9') || c = '_'

/-- Model of QRegularExpression::escape: every character that is not a word
character is prefixed with a backslash. -/
def qEscape (s : List Char) : List Char :=
  s.flatMap fun c => if isWordChar c then [c] else ['\\', c]

/-- FindReplace::GetSearchRegex, following the source's control flow: the
spell-check early return, the "\R" normalization, the escaping for the two
literal modes, the (?i) directive for Normal mode only, and the conditional
(?s) / (?U) directives for Regex mode. -/
def GetSearchRegex (spellCheck : Bool) (mode : SearchMode)
    (dotAll minimalMatch : Bool) (findText : List Char) : List Char :=
  if spellCheck then []
  else
    let text := normLineSeps findText
    let search := text
    if mode = .normal ∨ mode = .caseSensitive then
      let search := qEscape search
      if mode = .normal then PrependRegexOptionToSearch ignoreCaseOpt search
      else search
    else
      let search := if dotAll then PrependRegexOptionToSearch dotAllOpt search else search
      if minimalMatch then PrependRegexOptionToSearch minimalMatchOpt search else search

end FindReplace

/-- The spec's Regex Composer contract `BuildPattern(raw_text, mode, flags)`,
written from the words of spec section 4.1: normalize line separators,
escape for the literal modes, prepend the case-insensitivity directive for
Literal only, and for Regex conditionally prepend the dot-all and/or
minimal-match directives (insertion respecting a leading Unicode-property
directive). -/
def BuildPattern_spec (mode : SearchMode) (dotAll minimalMatch : Bool)
    (raw : List Char) : List Char :=
  let t := FindReplace.normLineSeps raw
  match mode with
  | .normal => FindReplace.PrependRegexOptionToSearch FindReplace.ignoreCaseOpt (FindReplace.qEscape t)
  | .caseSensitive => FindReplace.qEscape t
  | .regex =>
      (if minimalMatch then FindReplace.PrependRegexOptionToSearch FindReplace.minimalMatchOpt else id)
        ((if dotAll then FindReplace.PrependRegexOptionToSearch FindReplace.dotAllOpt else id) t)

namespace FindReplace

/-- Helper: inserting any directive never disturbs a leading "(*UCP)". -/
lemma ucp_prefix_prepend (opt search : List Char) (h : ucpOpt <+: search) :
    ucpOpt <+: PrependRegexOptionToSearch opt search := by
  unfold PrependRegexOptionToSearch
  rw [if_pos (List.isPrefixOf_iff_prefix.mpr h)]
  exact ⟨opt ++ search.drop ucpOpt.length, by simp⟩

/-- C4: PrependRegexOptionToSearch places a new directive immediately after a
leading "(*UCP)" and never before it, so that any sequence of automatically
prepended directives leaves "(*UCP)" the absolute first token; with no
leading "(*UCP)" the directive goes at the front. -/
theorem ucp_directive_stays_first (opt search : List Char) :
    (ucpOpt <+: search →
      PrependRegexOptionToSearch opt search
          = ucpOpt ++ opt ++ search.drop ucpOpt.length
        ∧ ucpOpt <+: PrependRegexOptionToSearch opt search)
    ∧ (¬ ucpOpt <+: search →
        PrependRegexOptionToSearch opt search = opt ++ search)
    ∧ (∀ opts : List (List Char), ucpOpt <+: search →
        ucpOpt <+: opts.foldl (fun s o => PrependRegexOptionToSearch o s) search) := by
  refine ⟨fun h => ⟨?_, ucp_prefix_prepend opt search h⟩, fun h => ?_, fun opts => ?_⟩
  · unfold PrependRegexOptionToSearch
    rw [if_pos (List.isPrefixOf_iff_prefix.mpr h)]
  · unfold PrependRegexOptionToSearch
    rw [if_neg]
    simpa using fun hc => h (List.isPrefixOf_iff_prefix.mp hc)
  · induction opts generalizing search with
    | nil => exact fun h => h
    | cons o rest ih =>
        intro h
        exact ih (PrependRegexOptionToSearch o search) (ucp_prefix_prepend o search h)

/-- Witness for C4 at a concrete input: search text "(*UCP)a" with the
case-insensitivity directive inserted. -/
theorem ucp_directive_stays_first_witness :
    PrependRegexOptionToSearch ignoreCaseOpt (ucpOpt ++ ['a'])
        = ucpOpt ++ ignoreCaseOpt ++ ['a']
      ∧ ucpOpt <+: PrependRegexOptionToSearch ignoreCaseOpt (ucpOpt ++ ['a']) := by
  have h := (ucp_directive_stays_first ignoreCaseOpt (ucpOpt ++ ['a'])).1
    ⟨['a'], rfl⟩
  exact ⟨by rw [h.1]; rfl, h.2⟩

/-- C5: GetSearchRegex (outside spell-check mode) realizes the spec's
BuildPattern contract: it normalizes Unicode line separators first, escapes
regex metacharacters in the Normal and Case-Sensitive literal modes,
prepends the case-insensitivity directive in Normal mode only, and in Regex
mode leaves the text unescaped while prepending the dot-all and/or
minimal-match directives exactly when those flags are set. -/
theorem getSearchRegex_builds_spec_pattern (mode : SearchMode)
    (dotAll minimalMatch : Bool) (raw : List Char) :
    GetSearchRegex false mode dotAll minimalMatch raw
      = BuildPattern_spec mode dotAll minimalMatch raw := by
  cases mode <;> cases dotAll <;> cases minimalMatch <;> rfl

/-- The `SearchDirection_Up` branch of GetFilesToSearch: append resources in
reading order, stopping after (and including) the current resource. -/
def takeThrough (cur : Resource) : List Resource → List Resource
  | [] => []
  | r :: rest => if r = cur then [r] else r :: takeThrough cur rest

/-- The `SearchDirection_Down` branch of GetFilesToSearch: skip resources
until the current resource is seen, then keep it and everything after. -/
def dropFrom (cur : Resource) : List Resource → List Resource
  | [] => []
  | r :: rest => if r = cur then r :: rest else dropFrom cur rest

/-- FindReplace::GetFilesToSearch.  `allResources` is the catalog query
selected by the LookWhere setting; `cur` is GetCurrentResource().  If
wrapping, or the current resource is not in the list, the full list is
returned; otherwise only the current file and the files before (Up) or
after (Down) it. -/
def GetFilesToSearch (allResources : List Resource) (wrap : Bool)
    (dir : SearchDirection) (cur : Resource) : List Resource :=
  if wrap ∨ cur ∉ allResources then allResources
  else
    match dir with
    | .up => takeThrough cur allResources
    | .down => dropFrom cur allResources

lemma takeThrough_initial (cur : Resource) :
    ∀ l : List Resource, takeThrough cur l <+: l := by
  intro l
  induction l with
  | nil => exact List.prefix_refl _
  | cons r rest ih =>
      by_cases h : r = cur
      · exact ⟨rest, by simp [takeThrough, h]⟩
      · rcases ih with ⟨t, ht⟩
        exact ⟨t, by simp [takeThrough, h, ht]⟩

lemma takeThrough_getLast (cur : Resource) :
    ∀ l : List Resource, cur ∈ l → (takeThrough cur l).getLast? = some cur := by
  intro l
  induction l with
  | nil => intro h; cases h
  | cons r rest ih =>
      intro hmem
      by_cases h : r = cur
      · simp [takeThrough, h]
      · have hrest : cur ∈ rest := by
          rcases List.mem_cons.mp hmem with h1 | h1
          · exact absurd h1.symm h
          · exact h1
        have htail := ih hrest
        have hne : takeThrough cur rest ≠ [] := by
          intro hnil; rw [hnil] at htail; cases htail
        rcases List.exists_cons_of_ne_nil hne with ⟨b, t, hbt⟩
        simp only [takeThrough, h, if_false, hbt, List.getLast?_cons_cons]
        rw [← hbt, htail]

lemma takeThrough_head (cur : Resource) (l : List Resource) :
    (takeThrough cur l).head? = l.head? := by
  cases l with
  | nil => rfl
  | cons r rest =>
      by_cases h : r = cur <;> simp [takeThrough, h]

lemma dropFrom_suffix (cur : Resource) :
    ∀ l : List Resource, dropFrom cur l <:+ l := by
  intro l
  induction l with
  | nil => exact List.suffix_refl _
  | cons r rest ih =>
      by_cases h : r = cur
      · simp [dropFrom, h]
      · simpa [dropFrom, h] using ih.trans (List.suffix_cons r rest)

lemma dropFrom_head (cur : Resource) :
    ∀ l : List Resource, cur ∈ l → (dropFrom cur l).head? = some cur := by
  intro l
  induction l with
  | nil => intro h; cases h
  | cons r rest ih =>
      intro hmem
      by_cases h : r = cur
      · simp [dropFrom, h]
      · have hrest : cur ∈ rest := by
          rcases List.mem_cons.mp hmem with h1 | h1
          · exact absurd h1.symm h
          · exact h1
        simpa [dropFrom, h] using ih hrest

lemma dropFrom_getLast (cur : Resource) :
    ∀ l : List Resource, cur ∈ l → (dropFrom cur l).getLast? = l.getLast? := by
  intro l
  induction l with
  | nil => intro h; cases h
  | cons r rest ih =>
      intro hmem
      by_cases h : r = cur
      · simp [dropFrom, h]
      · have hrest : cur ∈ rest := by
          rcases List.mem_cons.mp hmem with h1 | h1
          · exact absurd h1.symm h
          · exact h1
        have hne : rest ≠ [] := by intro hnil; rw [hnil] at hrest; cases hrest
        rcases List.exists_cons_of_ne_nil hne with ⟨b, t, hbt⟩
        have hstep : dropFrom cur (r :: rest) = dropFrom cur rest := by
          simp [dropFrom, h]
        rw [hstep, ih hrest, hbt, List.getLast?_cons_cons]

/-- C3: GetFilesToSearch returns the full scoped list when wrap is on or the
current resource is not a member; with wrap off and the current resource a
member it returns the prefix of the list ending at (and including) the
current resource for direction Up, and the suffix starting at (and
including) the current resource for direction Down. -/
theorem getFilesToSearch_spec (allResources : List Resource) (wrap : Bool)
    (dir : SearchDirection) (cur : Resource) :
    (wrap = true ∨ cur ∉ allResources →
      GetFilesToSearch allResources wrap dir cur = allResources)
    ∧ (wrap = false → cur ∈ allResources → dir = .up →
        GetFilesToSearch allResources wrap dir cur <+: allResources
          ∧ (GetFilesToSearch allResources wrap dir cur).getLast? = some cur
          ∧ (GetFilesToSearch allResources wrap dir cur).head? = allResources.head?)
    ∧ (wrap = false → cur ∈ allResources → dir = .down →
        GetFilesToSearch allResources wrap dir cur <:+ allResources
          ∧ (GetFilesToSearch allResources wrap dir cur).head? = some cur
          ∧ (GetFilesToSearch allResources wrap dir cur).getLast?
              = allResources.getLast?) := by
  refine ⟨fun h => ?_, fun hw hm hd => ?_, fun hw hm hd => ?_⟩
  · rcases h with h | h
    · simp [GetFilesToSearch, h]
    · simp [GetFilesToSearch, h]
  · subst hw; subst hd
    have hcond : ¬ (False ∨ cur ∉ allResources) := by simp [hm]
    simp only [GetFilesToSearch, Bool.false_eq_true, false_or]
    rw [if_neg (by simpa using hm)]
    exact ⟨takeThrough_initial cur allResources,
      takeThrough_getLast cur allResources hm,
      takeThrough_head cur allResources⟩
  · subst hw; subst hd
    simp only [GetFilesToSearch, Bool.false_eq_true, false_or]
    rw [if_neg (by simpa using hm)]
    exact ⟨dropFrom_suffix cur allResources,
      dropFrom_head cur allResources hm,
      dropFrom_getLast cur allResources hm⟩

/-- Witness for C3 at a concrete input: three resources with the middle one
current, wrap off, both directions, plus the wrap-on case. -/
theorem getFilesToSearch_spec_witness :
    GetFilesToSearch [⟨0, RType.html⟩, ⟨1, RType.html⟩, ⟨2, RType.html⟩] true
        SearchDirection.down ⟨1, RType.html⟩
      = [⟨0, RType.html⟩, ⟨1, RType.html⟩, ⟨2, RType.html⟩]
    ∧ GetFilesToSearch [⟨0, RType.html⟩, ⟨1, RType.html⟩, ⟨2, RType.html⟩] false
        SearchDirection.up ⟨1, RType.html⟩
        <+: [⟨0, RType.html⟩, ⟨1, RType.html⟩, ⟨2, RType.html⟩]
    ∧ GetFilesToSearch [⟨0, RType.html⟩, ⟨1, RType.html⟩, ⟨2, RType.html⟩] false
        SearchDirection.down ⟨1, RType.html⟩
        <:+ [⟨0, RType.html⟩, ⟨1, RType.html⟩, ⟨2, RType.html⟩] := by
  refine ⟨(getFilesToSearch_spec _ _ _ _).1 (Or.inl rfl),
    ((getFilesToSearch_spec _ _ _ _).2.1 rfl (by decide) rfl).1,
    ((getFilesToSearch_spec _ _ _ _).2.2 rfl (by decide) rfl).1⟩

/-- FindReplace::IsCurrentFileInSelection: whether any resource of the
resolved file list has the current resource's relative path. -/
def IsCurrentFileInSelection (files : List Resource) (cur : Resource) : Bool :=
  files.any fun r => r.path == cur.path

/-- The index-search loop at the top of FindReplace::GetNextResource: the
first index whose resource has the given relative path, if any (the source
leaves `current_reading_order` at 0 when no entry matches). -/
def findPathIdx? : List Resource → Resource → Option Nat
  | [], _ => none
  | r :: rest, cur =>
      if r.path = cur.path then some 0 else (findPathIdx? rest cur).map (· + 1)

/-- FindReplace::GetNextResource: look up the given resource's reading
order by relative path (defaulting to 0), move one position up or down with
wraparound at the ends, and return the resource there; reading orders are
C++ ints, so they are modelled as `Int` (an empty list gives
`max_reading_order = -1` and a NULL result). -/
def GetNextResource (files : List Resource) (r : Resource)
    (dir : SearchDirection) : Option Resource :=
  let maxRO : Int := (files.length : Int) - 1
  let curRO : Int := (((findPathIdx? files r).getD 0 : Nat) : Int)
  let nextRO : Int :=
    match dir with
    | .up => if 0 ≤ curRO - 1 then curRO - 1 else maxRO
    | .down => if curRO + 1 ≤ maxRO then curRO + 1 else 0
  if nextRO > maxRO ∨ nextRO < 0 then none
  else files.get? nextRO.toNat

/-- The starting-resource selection chain at the top of
FindReplace::GetNextContainingResource: the current resource when its type
matches the LookWhere scope kind, otherwise none. -/
def startingResource? (lw : LookWhere) (cur : Resource) : Option Resource :=
  if isWhereHTML lw ∧ cur.rtype = RType.html then some cur
  else if isWhereCSS lw ∧ cur.rtype = RType.css then some cur
  else if isWhereOPF lw ∧ cur.rtype = RType.opf then some cur
  else if isWhereNCX lw ∧ cur.rtype = RType.ncx then some cur
  else none

/-- The scope-boundary seed: first element for direction Up, last element
for direction Down (lines 976-980 of the source). -/
def boundarySeed (files : List Resource) (dir : SearchDirection) : Resource :=
  match dir with
  | .up => files.headI
  | .down => files.getLastI

/-- The traversal seed of GetNextContainingResource: the type-matching
current resource, unless there is none or the scope is a selected variant
not containing the current file, in which case the scope boundary. -/
def seedResource (files : List Resource) (cur : Resource) (lw : LookWhere)
    (dir : SearchDirection) : Resource :=
  match startingResource? lw cur with
  | none => boundarySeed files dir
  | some s =>
      if isWhereSelected lw ∧ ¬ IsCurrentFileInSelection files cur then
        boundarySeed files dir
      else s

/-- The while loop of GetNextContainingResource (lines 1003-1026), with an
explicit fuel argument and a counter of ResourceContainsCurrentRegex
containment tests.  The first component is `none` when the fuel ran out
(modelling non-termination, proved unreachable), `some none` when the
source returns NULL, and `some (some r)` when it returns resource `r`. -/
def gncrLoopC (files : List Resource) (wrap : Bool) (dir : SearchDirection)
    (containsRegex : Resource → Bool) (starting : Resource) :
    Nat → Resource → Bool → Option (Option Resource) × Nat
  | 0, _, _ => (none, 0)
  | fuel + 1, next, passed =>
      if passed = true ∧ next = starting then (some none, 0)
      else
        match GetNextResource files next dir with
        | none => (some none, 0)
        | some nr =>
            if nr = starting ∧ wrap = false then (some none, 0)
            else
              let passed' := passed || (nr == starting)
              if containsRegex nr then (some (some nr), 1)
              else
                let p := gncrLoopC files wrap dir containsRegex starting fuel nr passed'
                (p.1, p.2 + 1)

/-- FindReplace::GetNextContainingResource together with its containment
test count.  `files` stands for the (invocation-constant) value of
GetFilesToSearch(), `cur` for GetCurrentResource(), and `containsRegex` for the
ResourceContainsCurrentRegex collaborator.  The fuel `files.length + 2` is
proved sufficient for every run that starts at a member of a
duplicate-free list. -/
def GetNextContainingResourceRun (files : List Resource) (cur : Resource)
    (lw : LookWhere) (wrap : Bool) (dir : SearchDirection)
    (containsRegex : Resource → Bool) : Option (Option Resource) × Nat :=
  if files = [] then (some none, 0)
  else if files.length = 1 ∧ wrap = false then
    if IsCurrentFileInSelection files cur then (some none, 0)
    else if containsRegex (seedResource files cur lw dir) then
      (some (some (seedResource files cur lw dir)), 1)
    else (some none, 1)
  else
    gncrLoopC files wrap dir containsRegex (seedResource files cur lw dir)
      (files.length + 2) (seedResource files cur lw dir) false

/-- FindReplace::GetNextContainingResource's return value (NULL becomes
`none`). -/
def GetNextContainingResource (files : List Resource) (cur : Resource)
    (lw : LookWhere) (wrap : Bool) (dir : SearchDirection)
    (containsRegex : Resource → Bool) : Option Resource :=
  (GetNextContainingResourceRun files cur lw wrap dir containsRegex).1.getD none

/-- One circular advance on reading-order indices, as performed by
GetNextResource on a duplicate-free list of length `n`. -/
def stepIdx (dir : SearchDirection) (n i : Nat) : Nat :=
  match dir with
  | .up => if 1 ≤ i then i - 1 else n - 1
  | .down => if i + 1 ≤ n - 1 then i + 1 else 0

/-- Number of circular advances needed to reach index `s` from index `i`
(a full lap, `n`, when they coincide). -/
def distTo (dir : SearchDirection) (n s i : Nat) : Nat :=
  match dir with
  | .down => if i < s then s - i else n - (i - s)
  | .up => if s < i then i - s else n - (s - i)

lemma findPathIdx?_get :
    ∀ (l : List Resource), (l.map Resource.path).Nodup →
      ∀ i (h : i < l.length), findPathIdx? l (l.get ⟨i, h⟩) = some i := by
  intro l
  induction l with
  | nil => intro _ i h; cases h
  | cons r rest ih =>
      intro hnd i h
      have hmap : (r :: rest).map Resource.path
          = r.path :: rest.map Resource.path := rfl
      rw [hmap] at hnd
      have hnd' := List.nodup_cons.mp hnd
      cases i with
      | zero => simp [findPathIdx?]
      | succ j =>
          have hj : j < rest.length := Nat.lt_of_succ_lt_succ h
          have hmem : (rest.get ⟨j, hj⟩).path ∈ rest.map Resource.path :=
            List.mem_map_of_mem Resource.path (rest.get_mem j hj)
          have hne : r.path ≠ (rest.get ⟨j, hj⟩).path := by
            intro he; exact hnd'.1 (he ▸ hmem)
          have hgt : (r :: rest).get ⟨j + 1, h⟩ = rest.get ⟨j, hj⟩ := rfl
          rw [findPathIdx?, hgt, if_neg hne, ih hnd'.2 j hj]
          rfl

lemma stepIdx_lt (dir : SearchDirection) (n i : Nat) (hi : i < n) :
    stepIdx dir n i < n := by
  cases dir <;> simp only [stepIdx] <;> split <;> omega

/-- GetNextResource on the i-th element of a duplicate-free list returns
the element at the circular successor index. -/
lemma getNextResource_get (files : List Resource)
    (hnd : (files.map Resource.path).Nodup) (dir : SearchDirection)
    (i : Nat) (h : i < files.length) :
    GetNextResource files (files.get ⟨i, h⟩) dir
      = files.get? (stepIdx dir files.length i) := by
  have hidx := findPathIdx?_get files hnd i h
  have hn : 1 ≤ files.length := by omega
  unfold GetNextResource
  rw [hidx]
  cases dir <;>
    simp only [Option.getD_some, stepIdx] <;>
    split_ifs <;>
    first
      | rfl
      | (exfalso; omega)
      | (congr 1; omega)

lemma distTo_pos (dir : SearchDirection) (n s i : Nat) (hs : s < n)
    (hi : i < n) : 1 ≤ distTo dir n s i := by
  cases dir <;> simp only [distTo] <;> split <;> omega

lemma distTo_self (dir : SearchDirection) (n s : Nat) (_hs : s < n) :
    distTo dir n s s = n := by
  cases dir <;> simp [distTo]

lemma distTo_one_step (dir : SearchDirection) (n s i : Nat) (hs : s < n)
    (hi : i < n) (h : distTo dir n s i = 1) : stepIdx dir n i = s := by
  cases dir <;> simp only [distTo, stepIdx] at h ⊢ <;> split_ifs at h ⊢ <;> omega

lemma distTo_two_step (dir : SearchDirection) (n s i : Nat) (hs : s < n)
    (hi : i < n) (h : 2 ≤ distTo dir n s i) :
    stepIdx dir n i ≠ s ∧ distTo dir n s (stepIdx dir n i) = distTo dir n s i - 1 := by
  constructor
  · cases dir <;> simp only [distTo, stepIdx] at h ⊢ <;> split_ifs at h ⊢ <;> omega
  · cases dir <;> simp only [distTo, stepIdx] at h ⊢ <;> split_ifs at h ⊢ <;> omega

/-- Once the starting resource has been passed and revisited, the loop
condition fails and NULL is returned, at any remaining fuel. -/
lemma gncrLoop_exit (files : List Resource) (wrap : Bool)
    (dir : SearchDirection) (containsRegex : Resource → Bool)
    (starting : Resource) (fuel : Nat) :
    gncrLoopC files wrap dir containsRegex starting (fuel + 1) starting true
      = (some none, 0) := by
  simp [gncrLoopC]

/-- One unfolding of the traversal loop when the loop condition holds and
the advance step finds a resource. -/
lemma gncrLoop_succ (files : List Resource) (wrap : Bool)
    (dir : SearchDirection) (containsRegex : Resource → Bool)
    (starting : Resource) (fuel : Nat) (next : Resource) (passed : Bool)
    (nr : Resource) (hn : GetNextResource files next dir = some nr)
    (hnot : ¬ (passed = true ∧ next = starting)) :
    gncrLoopC files wrap dir containsRegex starting (fuel + 1) next passed
      = if nr = starting ∧ wrap = false then (some none, 0)
        else if containsRegex nr = true then (some (some nr), 1)
        else
          ((gncrLoopC files wrap dir containsRegex starting fuel nr
              (passed || (nr == starting))).1,
            (gncrLoopC files wrap dir containsRegex starting fuel nr
              (passed || (nr == starting))).2 + 1) := by
  rw [gncrLoopC, if_neg hnot, hn]

/-- Non-wrapping runs of the traversal loop terminate and perform strictly
fewer containment tests than the circular distance back to the start. -/
lemma gncrLoop_nowrap (files : List Resource)
    (hnd : (files.map Resource.path).Nodup) (dir : SearchDirection)
    (containsRegex : Resource → Bool) (starting : Resource) (s : Nat)
    (hs : s < files.length) (hstart : files.get ⟨s, hs⟩ = starting) :
    ∀ fuel i (hi : i < files.length),
      distTo dir files.length s i ≤ fuel →
      (gncrLoopC files false dir containsRegex starting fuel
          (files.get ⟨i, hi⟩) false).1 ≠ none
      ∧ (gncrLoopC files false dir containsRegex starting fuel
          (files.get ⟨i, hi⟩) false).2 + 1 ≤ distTo dir files.length s i := by
  have hnodup : files.Nodup := hnd.of_map Resource.path
  intro fuel
  induction fuel with
  | zero =>
      intro i hi hf
      have := distTo_pos dir files.length s i hs hi
      omega
  | succ fuel ih =>
      intro i hi hf
      have hstep_lt : stepIdx dir files.length i < files.length :=
        stepIdx_lt dir files.length i hi
      have hnext : GetNextResource files (files.get ⟨i, hi⟩) dir
          = some (files.get ⟨stepIdx dir files.length i, hstep_lt⟩) := by
        rw [getNextResource_get files hnd dir i hi, List.get?_eq_get hstep_lt]
      have hpos := distTo_pos dir files.length s i hs hi
      rw [gncrLoop_succ files false dir containsRegex starting fuel
        (files.get ⟨i, hi⟩) false (files.get ⟨stepIdx dir files.length i, hstep_lt⟩)
        hnext (by simp)]
      by_cases hd : distTo dir files.length s i = 1
      · have hstep := distTo_one_step dir files.length s i hs hi hd
        have hnr : files.get ⟨stepIdx dir files.length i, hstep_lt⟩ = starting := by
          rw [← hstart]
          congr 1
          exact Fin.ext hstep
        rw [if_pos ⟨hnr, rfl⟩]
        exact ⟨by simp, by simpa using hpos⟩
      · have h2 : 2 ≤ distTo dir files.length s i := by omega
        obtain ⟨hne, hdec⟩ := distTo_two_step dir files.length s i hs hi h2
        have hnr : files.get ⟨stepIdx dir files.length i, hstep_lt⟩ ≠ starting := by
          rw [← hstart]
          intro he
          exact hne (congrArg Fin.val ((hnodup.get_inj_iff).mp he))
        rw [if_neg (by intro hco; exact hnr hco.1)]
        by_cases hm : containsRegex
            (files.get ⟨stepIdx dir files.length i, hstep_lt⟩) = true
        · rw [if_pos hm]
          exact ⟨by simp, by simpa using h2⟩
        · rw [if_neg hm]
          have hb : (false || ((files.get
              ⟨stepIdx dir files.length i, hstep_lt⟩) == starting)) = false := by
            rw [Bool.false_or]
            exact beq_eq_false_iff_ne.mpr hnr
          rw [hb]
          have hrec := ih (stepIdx dir files.length i) hstep_lt (by omega)
          refine ⟨hrec.1, ?_⟩
          have hsnd : ((gncrLoopC files false dir containsRegex starting fuel
              (files.get ⟨stepIdx dir files.length i, hstep_lt⟩) false).1,
              (gncrLoopC files false dir containsRegex starting fuel
                (files.get ⟨stepIdx dir files.length i, hstep_lt⟩) false).2 + 1).2
              = (gncrLoopC files false dir containsRegex starting fuel
                (files.get ⟨stepIdx dir files.length i, hstep_lt⟩) false).2 + 1 := rfl
          rw [hsnd]
          omega

/-- Wrapping runs of the traversal loop terminate, perform at most as many
containment tests as the circular distance back to the start, and report
exhaustion only after the starting resource itself tested negative. -/
lemma gncrLoop_wrap (files : List Resource)
    (hnd : (files.map Resource.path).Nodup) (dir : SearchDirection)
    (containsRegex : Resource → Bool) (starting : Resource) (s : Nat)
    (hs : s < files.length) (hstart : files.get ⟨s, hs⟩ = starting) :
    ∀ fuel i (hi : i < files.length) (passed : Bool),
      distTo dir files.length s i + 1 ≤ fuel →
      (passed = true → containsRegex starting = false) →
      (gncrLoopC files true dir containsRegex starting fuel
          (files.get ⟨i, hi⟩) passed).1 ≠ none
      ∧ (gncrLoopC files true dir containsRegex starting fuel
          (files.get ⟨i, hi⟩) passed).2 ≤ distTo dir files.length s i
      ∧ ((gncrLoopC files true dir containsRegex starting fuel
          (files.get ⟨i, hi⟩) passed).1 = some none →
            containsRegex starting = false) := by
  have hnodup : files.Nodup := hnd.of_map Resource.path
  intro fuel
  induction fuel with
  | zero =>
      intro i hi passed hf hpass
      omega
  | succ fuel ih =>
      intro i hi passed hf hpass
      have hpos := distTo_pos dir files.length s i hs hi
      by_cases hp : passed = true ∧ files.get ⟨i, hi⟩ = starting
      · have heq : gncrLoopC files true dir containsRegex starting (fuel + 1)
            (files.get ⟨i, hi⟩) passed = (some none, 0) := by
          rw [gncrLoopC, if_pos hp]
        rw [heq]
        exact ⟨by simp, by simp, fun _ => hpass hp.1⟩
      · have hstep_lt : stepIdx dir files.length i < files.length :=
          stepIdx_lt dir files.length i hi
        have hnext : GetNextResource files (files.get ⟨i, hi⟩) dir
            = some (files.get ⟨stepIdx dir files.length i, hstep_lt⟩) := by
          rw [getNextResource_get files hnd dir i hi, List.get?_eq_get hstep_lt]
        rw [gncrLoop_succ files true dir containsRegex starting fuel
          (files.get ⟨i, hi⟩) passed
          (files.get ⟨stepIdx dir files.length i, hstep_lt⟩) hnext hp]
        rw [if_neg (by simp)]
        by_cases hd : distTo dir files.length s i = 1
        · have hstep := distTo_one_step dir files.length s i hs hi hd
          have hnr : files.get ⟨stepIdx dir files.length i, hstep_lt⟩ = starting := by
            rw [← hstart]
            congr 1
            exact Fin.ext hstep
          by_cases hm : containsRegex
              (files.get ⟨stepIdx dir files.length i, hstep_lt⟩) = true
          · rw [if_pos hm]
            exact ⟨by simp, by simpa using hpos, by simp⟩
          · rw [if_neg hm]
            have hb : (passed || ((files.get
                ⟨stepIdx dir files.length i, hstep_lt⟩) == starting)) = true := by
              rw [beq_iff_eq.mpr hnr, Bool.or_true]
            rw [hb, hnr]
            obtain ⟨f', rfl⟩ : ∃ f', fuel = f' + 1 := ⟨fuel - 1, by omega⟩
            rw [gncrLoop_exit files true dir containsRegex starting f']
            have hmf : containsRegex starting = false := by
              rw [hnr] at hm
              simpa using hm
            exact ⟨by simp, by simpa using hpos, fun _ => hmf⟩
        · have h2 : 2 ≤ distTo dir files.length s i := by omega
          obtain ⟨hne, hdec⟩ := distTo_two_step dir files.length s i hs hi h2
          have hnr : files.get ⟨stepIdx dir files.length i, hstep_lt⟩ ≠ starting := by
            rw [← hstart]
            intro he
            exact hne (congrArg Fin.val ((hnodup.get_inj_iff).mp he))
          by_cases hm : containsRegex
              (files.get ⟨stepIdx dir files.length i, hstep_lt⟩) = true
          · rw [if_pos hm]
            exact ⟨by simp, by simpa using hpos, by simp⟩
          · rw [if_neg hm]
            have hb : (passed || ((files.get
                ⟨stepIdx dir files.length i, hstep_lt⟩) == starting)) = passed := by
              rw [beq_eq_false_iff_ne.mpr hnr, Bool.or_false]
            rw [hb]
            have hrec := ih (stepIdx dir files.length i) hstep_lt passed
              (by omega) hpass
            refine ⟨hrec.1, ?_, ?_⟩
            · have hsnd : ((gncrLoopC files true dir containsRegex starting fuel
                  (files.get ⟨stepIdx dir files.length i, hstep_lt⟩) passed).1,
                  (gncrLoopC files true dir containsRegex starting fuel
                    (files.get ⟨stepIdx dir files.length i, hstep_lt⟩) passed).2
                    + 1).2
                  = (gncrLoopC files true dir containsRegex starting fuel
                    (files.get ⟨stepIdx dir files.length i, hstep_lt⟩) passed).2
                    + 1 := rfl
              rw [hsnd]
              have := hrec.2.1
              omega
            · exact hrec.2.2

/-- C1: every cross-document traversal terminates; with wrap disabled
GetNextContainingResource performs at most N containment tests (N the
length of the scope ordering) and returns a resource or nothing, with wrap
enabled at most N + 1, and a wrapping search is reported exhausted only
after the starting resource itself tested negative on the circular pass.
The hypotheses record the catalog invariants: the ordering lists distinct
relative paths, and the traversal seed belongs to the ordering. -/
theorem nextContainingResource_terminates_bounded
    (files : List Resource) (cur : Resource) (lw : LookWhere) (wrap : Bool)
    (dir : SearchDirection) (containsRegex : Resource → Bool)
    (hnd : (files.map Resource.path).Nodup)
    (hseed : files ≠ [] → seedResource files cur lw dir ∈ files) :
    (GetNextContainingResourceRun files cur lw wrap dir containsRegex).1 ≠ none
    ∧ (GetNextContainingResourceRun files cur lw wrap dir containsRegex).2
        ≤ files.length + (if wrap then 1 else 0)
    ∧ (wrap = true → files ≠ [] →
        (GetNextContainingResourceRun files cur lw wrap dir containsRegex).1
          = some none →
        containsRegex (seedResource files cur lw dir) = false) := by
  by_cases hempty : files = []
  · subst hempty
    refine ⟨by simp [GetNextContainingResourceRun],
      by simp [GetNextContainingResourceRun], ?_⟩
    intro _ hne _
    exact absurd rfl hne
  · obtain ⟨⟨s, hs⟩, hstart⟩ := List.mem_iff_get.mp (hseed hempty)
    by_cases hone : files.length = 1 ∧ wrap = false
    · have hrun : GetNextContainingResourceRun files cur lw wrap dir containsRegex
          = (if IsCurrentFileInSelection files cur then (some none, 0)
             else if containsRegex (seedResource files cur lw dir) then
               (some (some (seedResource files cur lw dir)), 1)
             else (some none, 1)) := by
        unfold GetNextContainingResourceRun
        rw [if_neg hempty, if_pos hone]
      obtain ⟨h1, h2⟩ := hone
      subst h2
      rw [hrun]
      by_cases hsel : IsCurrentFileInSelection files cur = true
      · rw [if_pos hsel]
        exact ⟨by simp, by simp, by simp⟩
      · rw [if_neg hsel]
        by_cases hm : containsRegex (seedResource files cur lw dir) = true
        · rw [if_pos hm]
          exact ⟨by simp, by simp [h1], by simp⟩
        · rw [if_neg hm]
          exact ⟨by simp, by simp [h1], by simp⟩
    · have hrun : GetNextContainingResourceRun files cur lw wrap dir containsRegex
          = gncrLoopC files wrap dir containsRegex (seedResource files cur lw dir)
              (files.length + 2) (seedResource files cur lw dir) false := by
        unfold GetNextContainingResourceRun
        rw [if_neg hempty, if_neg hone]
      rw [hrun, ← hstart]
      cases wrap with
      | false =>
          have hb := gncrLoop_nowrap files hnd dir containsRegex
            (files.get ⟨s, hs⟩) s hs rfl (files.length + 2) s hs
            (by rw [distTo_self dir files.length s hs]; omega)
          have hc := hb.2
          rw [distTo_self dir files.length s hs] at hc
          have h2 : (gncrLoopC files false dir containsRegex (files.get ⟨s, hs⟩)
              (files.length + 2) (files.get ⟨s, hs⟩) false).2
              ≤ files.length := by omega
          exact ⟨hb.1, by simpa using h2, by simp⟩
      | true =>
          have hb := gncrLoop_wrap files hnd dir containsRegex
            (files.get ⟨s, hs⟩) s hs rfl (files.length + 2) s hs false
            (by rw [distTo_self dir files.length s hs]; omega) (by simp)
          have hc := hb.2.1
          rw [distTo_self dir files.length s hs] at hc
          have h2 : (gncrLoopC files true dir containsRegex (files.get ⟨s, hs⟩)
              (files.length + 2) (files.get ⟨s, hs⟩) false).2
              ≤ files.length + 1 := by omega
          exact ⟨hb.1, by simpa using h2, fun _ _ hnone => hb.2.2 hnone⟩

/-- Witness for C1 at a concrete input: two distinct resources, wrap
enabled, nothing matching. -/
theorem nextContainingResource_terminates_bounded_witness :
    (GetNextContainingResourceRun [⟨0, RType.html⟩, ⟨1, RType.html⟩]
        ⟨0, RType.html⟩ LookWhere.allHTML true SearchDirection.down
        (fun _ => false)).1 ≠ none
    ∧ (GetNextContainingResourceRun [⟨0, RType.html⟩, ⟨1, RType.html⟩]
        ⟨0, RType.html⟩ LookWhere.allHTML true SearchDirection.down
        (fun _ => false)).2 ≤ 2 + (if true then 1 else 0) := by
  have h := nextContainingResource_terminates_bounded
    [⟨0, RType.html⟩, ⟨1, RType.html⟩] ⟨0, RType.html⟩ LookWhere.allHTML true
    SearchDirection.down (fun _ => false) (by decide) (fun _ => by decide)
  exact ⟨h.1, h.2.1⟩

/-- C2: on a one-element scope ordering with wrap disabled,
GetNextContainingResource returns the sole element exactly when it is not
the already-searched current file and contains a match; when the sole
element is the current file, nothing is returned regardless of matches.
The hypothesis pins the traversal seed to the sole element, which holds in
every configuration the host can produce (the element case follows from
the catalog invariant that a type-matching current resource is listed). -/
theorem nextContainingResource_single (a cur : Resource) (lw : LookWhere)
    (dir : SearchDirection) (containsRegex : Resource → Bool)
    (hseed : seedResource [a] cur lw dir = a) :
    GetNextContainingResource [a] cur lw false dir containsRegex
      = if a.path = cur.path then none
        else if containsRegex a then some a else none := by
  have hne : ([a] : List Resource) ≠ [] := by simp
  have hone : ([a] : List Resource).length = 1 ∧ (false : Bool) = false :=
    ⟨rfl, rfl⟩
  unfold GetNextContainingResource GetNextContainingResourceRun
  rw [if_neg hne, if_pos hone, hseed]
  by_cases hc : a.path = cur.path
  · have hsel : IsCurrentFileInSelection [a] cur = true := by
      simp [IsCurrentFileInSelection, hc]
    rw [if_pos hsel, if_pos hc]
    rfl
  · have hsel : ¬ (IsCurrentFileInSelection [a] cur = true) := by
      simp [IsCurrentFileInSelection, hc]
    rw [if_neg hsel, if_neg hc]
    by_cases hm : containsRegex a = true
    · rw [if_pos hm, if_pos hm]
      rfl
    · rw [if_neg hm, if_neg hm]
      rfl

/-- Witness for C2 at a concrete input: a sole matching resource distinct
from the current file is returned; the same resource as current file gives
nothing. -/
theorem nextContainingResource_single_witness :
    GetNextContainingResource [⟨2, RType.html⟩] ⟨9, RType.other⟩
        LookWhere.allHTML false SearchDirection.down (fun _ => true)
      = if (2 : Nat) = 9 then none
        else if (fun (_ : Resource) => true) (⟨2, RType.html⟩ : Resource) then
          some ⟨2, RType.html⟩
        else none := by
  exact nextContainingResource_single ⟨2, RType.html⟩ ⟨9, RType.other⟩
    LookWhere.allHTML SearchDirection.down (fun _ => true) (by decide)

/-- The UI-held search controls serialized by GetControls and written by
UpdateSearchControls: mode, look-where scope, direction, and the four
option flags. -/
structure SearchControls where
  mode : SearchMode
  look : LookWhere
  direction : SearchDirection
  dotAll : Bool
  minimalMatch : Bool
  autoTokenise : Bool
  wrap : Bool
deriving DecidableEq, Repr

/-- The MDS table: mode tokens NL, CS, RX. -/
def modeTok (m : SearchMode) : List Char :=
  match m with
  | .normal => ['N', 'L']
  | .caseSensitive => ['C', 'S']
  | .regex => ['R', 'X']

/-- The DRS table: direction tokens DN, UP. -/
def dirTok (d : SearchDirection) : List Char :=
  match d with
  | .down => ['D', 'N']
  | .up => ['U', 'P']

/-- The TGTS table: scope tokens CF, AH, SH, TH, AC, SC, TC, OP, NX. -/
def lookTok (lw : LookWhere) : List Char :=
  match lw with
  | .currentFile => ['C', 'F']
  | .allHTML => ['A', 'H']
  | .selectedHTML => ['S', 'H']
  | .tabbedHTML => ['T', 'H']
  | .allCSS => ['A', 'C']
  | .selectedCSS => ['S', 'C']
  | .tabbedCSS => ['T', 'C']
  | .opfFile => ['O', 'P']
  | .ncxFile => ['N', 'X']

/-- The QStringList built by FindReplace::GetControls: the mode token, the
present flag tokens DA, MM, AT, WR in that order, the direction token, and
the scope token. -/
def controlToks (st : SearchControls) : List (List Char) :=
  [modeTok st.mode]
    ++ (if st.dotAll then [['D', 'A']] else [])
    ++ (if st.minimalMatch then [['M', 'M']] else [])
    ++ (if st.autoTokenise then [['A', 'T']] else [])
    ++ (if st.wrap then [['W', 'R']] else [])
    ++ [dirTok st.direction] ++ [lookTok st.look]

/-- QStringList::join with a single-space separator. -/
def joinSp : List (List Char) → List Char
  | [] => []
  | [t] => t
  | t :: rest => t ++ ' ' :: joinSp rest

/-- FindReplace::GetControls: the control tokens joined with spaces. -/
def GetControls (st : SearchControls) : List Char :=
  joinSp (controlToks st)

/-- Token matching used by UpdateSearchControls: QString::contains, i.e.
substring containment, not field parsing. -/
def containsTok : (text tok : List Char) → Bool
  | [], tok => tok.isEmpty
  | c :: rest, tok => tok.isPrefixOf (c :: rest) || containsTok rest tok

/-- FindReplace::UpdateSearchControls: parse a control string by substring
containment; an empty string leaves the controls unchanged, otherwise the
mode/scope/direction chains fire on the first contained token and the four
flags are set from token presence unconditionally. -/
def UpdateSearchControls (text : List Char) (st : SearchControls) :
    SearchControls :=
  if text = [] then st
  else
    let st1 :=
      if containsTok text ['N', 'L'] then { st with mode := SearchMode.normal }
      else if containsTok text ['R', 'X'] then { st with mode := SearchMode.regex }
      else if containsTok text ['C', 'S'] then { st with mode := SearchMode.caseSensitive }
      else st
    let st2 :=
      if containsTok text ['C', 'F'] then { st1 with look := LookWhere.currentFile }
      else if containsTok text ['A', 'H'] then { st1 with look := LookWhere.allHTML }
      else if containsTok text ['S', 'H'] then { st1 with look := LookWhere.selectedHTML }
      else if containsTok text ['T', 'H'] then { st1 with look := LookWhere.tabbedHTML }
      else if containsTok text ['A', 'C'] then { st1 with look := LookWhere.allCSS }
      else if containsTok text ['S', 'C'] then { st1 with look := LookWhere.selectedCSS }
      else if containsTok text ['T', 'C'] then { st1 with look := LookWhere.tabbedCSS }
      else if containsTok text ['O', 'P'] then { st1 with look := LookWhere.opfFile }
      else if containsTok text ['N', 'X'] then { st1 with look := LookWhere.ncxFile }
      else st1
    let st3 :=
      if containsTok text ['U', 'P'] then { st2 with direction := SearchDirection.up }
      else if containsTok text ['D', 'N'] then { st2 with direction := SearchDirection.down }
      else st2
    { st3 with
      wrap := containsTok text ['W', 'R']
      dotAll := containsTok text ['D', 'A']
      minimalMatch := containsTok text ['M', 'M']
      autoTokenise := containsTok text ['A', 'T'] }

/-- A control token: exactly two characters, neither a space. -/
def spaceFreePair (t : List Char) : Prop :=
  ∃ x y, t = [x, y] ∧ x ≠ ' ' ∧ y ≠ ' '

lemma mem_controlToks (st : SearchControls) (pat : List Char) :
    pat ∈ controlToks st ↔
      pat = modeTok st.mode
        ∨ (st.dotAll = true ∧ pat = ['D', 'A'])
        ∨ (st.minimalMatch = true ∧ pat = ['M', 'M'])
        ∨ (st.autoTokenise = true ∧ pat = ['A', 'T'])
        ∨ (st.wrap = true ∧ pat = ['W', 'R'])
        ∨ pat = dirTok st.direction ∨ pat = lookTok st.look := by
  obtain ⟨m, lk, d, da, mm, at_, wr⟩ := st
  cases da <;> cases mm <;> cases at_ <;> cases wr <;>
    simp [controlToks, or_assoc]

lemma controlToks_spaceFree (st : SearchControls) :
    ∀ t ∈ controlToks st, spaceFreePair t := by
  intro t ht
  rw [mem_controlToks] at ht
  rcases ht with h | ⟨_, h⟩ | ⟨_, h⟩ | ⟨_, h⟩ | ⟨_, h⟩ | h | h
  · subst h; cases st.mode <;> exact ⟨_, _, rfl, by decide, by decide⟩
  · subst h; exact ⟨_, _, rfl, by decide, by decide⟩
  · subst h; exact ⟨_, _, rfl, by decide, by decide⟩
  · subst h; exact ⟨_, _, rfl, by decide, by decide⟩
  · subst h; exact ⟨_, _, rfl, by decide, by decide⟩
  · subst h; cases st.direction <;> exact ⟨_, _, rfl, by decide, by decide⟩
  · subst h; cases st.look <;> exact ⟨_, _, rfl, by decide, by decide⟩

/-- Containment of a space-free two-character pattern in a space-joined
token list is exactly membership among the tokens: a two-character match
cannot straddle a space boundary. -/
lemma containsTok_joinSp (a b : Char) (ha : a ≠ ' ') (hb : b ≠ ' ') :
    ∀ toks : List (List Char), (∀ t ∈ toks, spaceFreePair t) →
      (containsTok (joinSp toks) [a, b] = true ↔ [a, b] ∈ toks) := by
  have ha' : (a == ' ') = false := beq_eq_false_iff_ne.mpr ha
  have hb' : (b == ' ') = false := beq_eq_false_iff_ne.mpr hb
  intro toks
  induction toks with
  | nil =>
      intro _
      simp [joinSp, containsTok]
  | cons t rest ih =>
      intro hgood
      obtain ⟨x, y, rfl, hx, hy⟩ := hgood t (by simp)
      have hrest : ∀ u ∈ rest, spaceFreePair u := fun u hu =>
        hgood u (by simp [hu])
      cases rest with
      | nil =>
          simp [joinSp, containsTok, List.isPrefixOf, and_assoc]
      | cons r rs =>
          have hihj := ih hrest
          show containsTok ([x, y] ++ ' ' :: joinSp (r :: rs)) [a, b] = true
            ↔ [a, b] ∈ [x, y] :: r :: rs
          simp only [List.cons_append, List.nil_append, containsTok,
            List.isPrefixOf, ha', hb', Bool.and_false, Bool.false_and,
            Bool.and_true, Bool.false_or, Bool.or_false, Bool.or_eq_true,
            Bool.and_eq_true, beq_iff_eq, List.mem_cons, hihj,
            List.cons.injEq, and_true]

lemma modeTok_eq_iff (m : SearchMode) (pat : List Char) :
    pat = modeTok m ↔
      (m = .normal ∧ pat = ['N', 'L'])
        ∨ (m = .caseSensitive ∧ pat = ['C', 'S'])
        ∨ (m = .regex ∧ pat = ['R', 'X']) := by
  cases m <;> simp [modeTok]

lemma dirTok_eq_iff (d : SearchDirection) (pat : List Char) :
    pat = dirTok d ↔
      (d = .down ∧ pat = ['D', 'N']) ∨ (d = .up ∧ pat = ['U', 'P']) := by
  cases d <;> simp [dirTok]

lemma lookTok_eq_iff (lk : LookWhere) (pat : List Char) :
    pat = lookTok lk ↔
      (lk = .currentFile ∧ pat = ['C', 'F'])
        ∨ (lk = .allHTML ∧ pat = ['A', 'H'])
        ∨ (lk = .selectedHTML ∧ pat = ['S', 'H'])
        ∨ (lk = .tabbedHTML ∧ pat = ['T', 'H'])
        ∨ (lk = .allCSS ∧ pat = ['A', 'C'])
        ∨ (lk = .selectedCSS ∧ pat = ['S', 'C'])
        ∨ (lk = .tabbedCSS ∧ pat = ['T', 'C'])
        ∨ (lk = .opfFile ∧ pat = ['O', 'P'])
        ∨ (lk = .ncxFile ∧ pat = ['N', 'X']) := by
  cases lk <;> simp [lookTok]

lemma eq_decide_of_iff (b : Bool) (p : Prop) [Decidable p]
    (h : b = true ↔ p) : b = decide p := by
  by_cases hp : p
  · simp [hp, h.mpr hp]
  · have hbf : b = false := by
      cases hbv : b
      · rfl
      · exact absurd (h.mp hbv) hp
    simp [hp, hbf]

lemma contains_controls_iff (st : SearchControls) (a b : Char)
    (ha : a ≠ ' ') (hb : b ≠ ' ') :
    containsTok (GetControls st) [a, b] = true ↔ [a, b] ∈ controlToks st := by
  rw [GetControls]
  exact containsTok_joinSp a b ha hb (controlToks st) (controlToks_spaceFree st)

lemma contains_ctl_mode (st : SearchControls) :
    containsTok (GetControls st) ['N', 'L'] = decide (st.mode = .normal)
    ∧ containsTok (GetControls st) ['C', 'S'] = decide (st.mode = .caseSensitive)
    ∧ containsTok (GetControls st) ['R', 'X'] = decide (st.mode = .regex) := by
  refine ⟨?_, ?_, ?_⟩ <;>
    (apply eq_decide_of_iff
     rw [contains_controls_iff st _ _ (by decide) (by decide),
       mem_controlToks, modeTok_eq_iff, dirTok_eq_iff, lookTok_eq_iff]
     simp)

lemma contains_ctl_look (st : SearchControls) :
    containsTok (GetControls st) ['C', 'F'] = decide (st.look = .currentFile)
    ∧ containsTok (GetControls st) ['A', 'H'] = decide (st.look = .allHTML)
    ∧ containsTok (GetControls st) ['S', 'H'] = decide (st.look = .selectedHTML)
    ∧ containsTok (GetControls st) ['T', 'H'] = decide (st.look = .tabbedHTML)
    ∧ containsTok (GetControls st) ['A', 'C'] = decide (st.look = .allCSS)
    ∧ containsTok (GetControls st) ['S', 'C'] = decide (st.look = .selectedCSS)
    ∧ containsTok (GetControls st) ['T', 'C'] = decide (st.look = .tabbedCSS)
    ∧ containsTok (GetControls st) ['O', 'P'] = decide (st.look = .opfFile)
    ∧ containsTok (GetControls st) ['N', 'X'] = decide (st.look = .ncxFile) := by
  refine ⟨?_, ?_, ?_, ?_, ?_, ?_, ?_, ?_, ?_⟩ <;>
    (apply eq_decide_of_iff
     rw [contains_controls_iff st _ _ (by decide) (by decide),
       mem_controlToks, modeTok_eq_iff, dirTok_eq_iff, lookTok_eq_iff]
     simp)

lemma contains_ctl_dir (st : SearchControls) :
    containsTok (GetControls st) ['U', 'P'] = decide (st.direction = .up)
    ∧ containsTok (GetControls st) ['D', 'N'] = decide (st.direction = .down) := by
  refine ⟨?_, ?_⟩ <;>
    (apply eq_decide_of_iff
     rw [contains_controls_iff st _ _ (by decide) (by decide),
       mem_controlToks, modeTok_eq_iff, dirTok_eq_iff, lookTok_eq_iff]
     simp)

lemma contains_ctl_flag_aux (st : SearchControls) (a b : Char) (bb : Bool)
    (ha : a ≠ ' ') (hb : b ≠ ' ')
    (hmem : [a, b] ∈ controlToks st ↔ bb = true) :
    containsTok (GetControls st) [a, b] = bb := by
  have h : containsTok (GetControls st) [a, b] = decide (bb = true) := by
    apply eq_decide_of_iff
    rw [contains_controls_iff st a b ha hb]
    exact hmem
  simpa using h

lemma contains_ctl_flags (st : SearchControls) :
    containsTok (GetControls st) ['D', 'A'] = st.dotAll
    ∧ containsTok (GetControls st) ['M', 'M'] = st.minimalMatch
    ∧ containsTok (GetControls st) ['A', 'T'] = st.autoTokenise
    ∧ containsTok (GetControls st) ['W', 'R'] = st.wrap := by
  refine ⟨?_, ?_, ?_, ?_⟩ <;>
    (apply contains_ctl_flag_aux st _ _ _ (by decide) (by decide)
     rw [mem_controlToks, modeTok_eq_iff, dirTok_eq_iff, lookTok_eq_iff]
     simp)

lemma GetControls_ne_nil (st : SearchControls) : GetControls st ≠ [] := by
  have hjoin : ∃ u, joinSp (controlToks st)
      = modeTok st.mode ++ u := by
    show ∃ u, joinSp (modeTok st.mode :: ((if st.dotAll then [['D', 'A']] else [])
      ++ (if st.minimalMatch then [['M', 'M']] else [])
      ++ (if st.autoTokenise then [['A', 'T']] else [])
      ++ (if st.wrap then [['W', 'R']] else [])
      ++ [dirTok st.direction] ++ [lookTok st.look])) = modeTok st.mode ++ u
    cases hrest : ((if st.dotAll then [['D', 'A']] else [])
      ++ (if st.minimalMatch then [['M', 'M']] else [])
      ++ (if st.autoTokenise then [['A', 'T']] else [])
      ++ (if st.wrap then [['W', 'R']] else [])
      ++ [dirTok st.direction] ++ [lookTok st.look]) with
    | nil => exact ⟨[], by simp [joinSp]⟩
    | cons r rs => exact ⟨' ' :: joinSp (r :: rs), rfl⟩
  obtain ⟨u, hu⟩ := hjoin
  rw [GetControls, hu]
  cases hm : st.mode <;> simp [modeTok]

/-- C6: serializing any combination of mode, flags, direction, and scope
with GetControls and parsing the string back with UpdateSearchControls
restores exactly the serialized controls, over any prior control state
(absent flag tokens clear the corresponding flags), despite the
substring-containment parsing. -/
theorem controls_roundtrip (st prior : SearchControls) :
    UpdateSearchControls (GetControls st) prior = st := by
  obtain ⟨hNL, hCS, hRX⟩ := contains_ctl_mode st
  obtain ⟨hCF, hAH, hSH, hTH, hAC, hSC, hTC, hOP, hNX⟩ := contains_ctl_look st
  obtain ⟨hUP, hDN⟩ := contains_ctl_dir st
  obtain ⟨hDA, hMM, hAT, hWR⟩ := contains_ctl_flags st
  unfold UpdateSearchControls
  rw [if_neg (GetControls_ne_nil st)]
  simp only [hNL, hCS, hRX, hCF, hAH, hSH, hTH, hAC, hSC, hTC, hOP, hNX,
    hUP, hDN, hDA, hMM, hAT, hWR]
  obtain ⟨m, lk, d, da, mm, at_, wr⟩ := st
  cases m <;> cases lk <;> cases d <;> rfl

/-- FindReplace::CountInFiles: the resolved file list, minus the current
resource when not wrapping (QList::removeOne), passed to the bulk counter
SearchOperations::CountInFiles, which is abstracted as the sum of a
per-resource match count. -/
def CountInFiles (files : List Resource) (cur : Resource) (wrap : Bool)
    (perFileCount : Resource → Nat) : Nat :=
  ((if wrap then files else files.erase cur).map perFileCount).sum

/-- The corpus branch of FindReplace::Count (lines 418-428): the bulk count
plus, when not wrapping and a Searchable is available, the current
document's separately computed count. -/
def CountCorpus (files : List Resource) (cur : Resource) (wrap : Bool)
    (perFileCount : Resource → Nat) (searchableAvailable : Bool)
    (searchableCount : Nat) : Nat :=
  CountInFiles files cur wrap perFileCount
    + (if ¬wrap ∧ searchableAvailable then searchableCount else 0)

lemma sum_map_erase_add (files : List Resource) (cur : Resource)
    (pf : Resource → Nat) (hcur : cur ∈ files) :
    ((files.erase cur).map pf).sum + pf cur = (files.map pf).sum := by
  induction files with
  | nil => cases hcur
  | cons r rest ih =>
      by_cases h : r = cur
      · subst h
        rw [List.erase_cons_head]
        simp [Nat.add_comm]
      · have hrest : cur ∈ rest := by
          rcases List.mem_cons.mp hcur with h1 | h1
          · exact absurd h1.symm h
          · exact h1
        have he : (r :: rest).erase cur = r :: rest.erase cur := by
          rw [List.erase_cons_tail]
          simp [h]
        rw [he]
        simp only [List.map_cons, List.sum_cons]
        rw [Nat.add_assoc, ih hrest]

/-- C7: in a corpus-scope Count with wrap disabled, the current resource is
removed from the bulk pass and its separately computed count is added
exactly once, so the total equals the plain sum over all files and nothing
is counted twice; with wrap enabled the bulk pass alone counts every file
and no separate count is added. -/
theorem count_no_double_counting (files : List Resource) (cur : Resource)
    (perFileCount : Resource → Nat) (hnd : files.Nodup) (hcur : cur ∈ files) :
    CountCorpus files cur true perFileCount true (perFileCount cur)
        = (files.map perFileCount).sum
    ∧ CountCorpus files cur false perFileCount true (perFileCount cur)
        = (files.map perFileCount).sum
    ∧ cur ∉ files.erase cur := by
  refine ⟨?_, ?_, ?_⟩
  · simp [CountCorpus, CountInFiles]
  · have hsum := sum_map_erase_add files cur perFileCount hcur
    simp only [CountCorpus, CountInFiles]
    simpa using hsum
  · intro hm
    exact ((hnd.mem_erase_iff).mp hm).1 rfl

/-- Witness for C7 at a concrete input: two resources, current is the
first, each containing one match. -/
theorem count_no_double_counting_witness :
    CountCorpus [⟨0, RType.html⟩, ⟨1, RType.html⟩] ⟨0, RType.html⟩ false
        (fun _ => 1) true ((fun (_ : Resource) => 1) ⟨0, RType.html⟩)
      = (([⟨0, RType.html⟩, ⟨1, RType.html⟩] : List Resource).map
          (fun _ => 1)).sum := by
  exact (count_no_double_counting [⟨0, RType.html⟩, ⟨1, RType.html⟩]
    ⟨0, RType.html⟩ (fun _ => 1) (by decide) (by decide)).2.1

/-- Side effects of ReplaceAll observable by the host: the book modified
flag, the content-changed-externally notification, and the user
messages. -/
inductive FREvent
  | setModified
  | contentChanged
  | msgNoReplacements
  | msgReplacements (n : Nat)
deriving DecidableEq, Repr

/-- FindReplace::ReplaceInAllFiles: the resolved file list, minus the
current resource when not wrapping, passed to the bulk replacer
(abstracted as a per-resource replacement count). -/
def ReplaceInAllFiles (files : List Resource) (cur : Resource) (wrap : Bool)
    (perFileReplace : Resource → Nat) : Nat :=
  ((if wrap then files else files.erase cur).map perFileReplace).sum

/-- The tail of FindReplace::ReplaceAll (lines 529-544): the user message,
then — only when the count is positive — one SetModified and one
ContentChangedExternally emission. -/
def replaceAllFinish (count : Nat) : Nat × List FREvent :=
  (count,
    (if count = 0 then [FREvent.msgNoReplacements]
     else [FREvent.msgReplacements count])
      ++ (if 0 < count then [FREvent.setModified, FREvent.contentChanged]
          else []))

/-- FindReplace::ReplaceAll with its side effects recorded as an event
trace: the current-file branch uses the Searchable's ReplaceAll count, the
corpus branch the bulk count plus the current document's non-wrapping
separate count; an invalid pattern or missing Searchable returns zero with
no events. -/
def ReplaceAll (validFind currentScope searchableAvailable : Bool)
    (searchableReplaceAll : Nat) (files : List Resource) (cur : Resource)
    (wrap : Bool) (perFileReplace : Resource → Nat)
    (searchableReplaceCur : Nat) : Nat × List FREvent :=
  if ¬validFind then (0, [])
  else if currentScope then
    if ¬searchableAvailable then (0, [])
    else replaceAllFinish searchableReplaceAll
  else
    replaceAllFinish
      (ReplaceInAllFiles files cur wrap perFileReplace
        + (if ¬wrap ∧ searchableAvailable then searchableReplaceCur else 0))

/-- C8: ReplaceAll emits the book-modified flag and the
content-changed-externally notification exactly once when its aggregated
replacement count is positive and not at all when it is zero, for every
branch and any per-file replacement counts. -/
lemma replaceAllFinish_fst (c : Nat) : (replaceAllFinish c).1 = c := rfl

lemma replaceAllFinish_counts (c : Nat) :
    ((replaceAllFinish c).2.count FREvent.setModified
      = if 0 < c then 1 else 0)
    ∧ ((replaceAllFinish c).2.count FREvent.contentChanged
      = if 0 < c then 1 else 0) := by
  unfold replaceAllFinish
  by_cases h : c = 0
  · subst h
    simp
  · have h0 : 0 < c := Nat.pos_of_ne_zero h
    rw [if_neg h, if_pos h0, if_pos h0]
    constructor <;> simp [List.count_cons]

theorem replaceAll_notifies_once (validFind currentScope savail : Bool)
    (sra : Nat) (files : List Resource) (cur : Resource) (wrap : Bool)
    (pfr : Resource → Nat) (src : Nat) :
    ((ReplaceAll validFind currentScope savail sra files cur wrap pfr
        src).2.count FREvent.setModified
      = if 0 < (ReplaceAll validFind currentScope savail sra files cur wrap
          pfr src).1 then 1 else 0)
    ∧ ((ReplaceAll validFind currentScope savail sra files cur wrap pfr
        src).2.count FREvent.contentChanged
      = if 0 < (ReplaceAll validFind currentScope savail sra files cur wrap
          pfr src).1 then 1 else 0) := by
  cases validFind with
  | false => exact ⟨by simp [ReplaceAll], by simp [ReplaceAll]⟩
  | true =>
      cases currentScope with
      | true =>
          cases savail with
          | false => exact ⟨by simp [ReplaceAll], by simp [ReplaceAll]⟩
          | true =>
              have he : ReplaceAll true true true sra files cur wrap pfr src
                  = replaceAllFinish sra := by
                simp [ReplaceAll]
              rw [he, replaceAllFinish_fst]
              exact replaceAllFinish_counts sra
      | false =>
          have he : ReplaceAll true false savail sra files cur wrap pfr src
              = replaceAllFinish
                  (ReplaceInAllFiles files cur wrap pfr
                    + (if ¬wrap ∧ savail then src else 0)) := by
            simp [ReplaceAll]
          rw [he, replaceAllFinish_fst]
          exact replaceAllFinish_counts _

/-- FindReplace::SetFirstResource: no-op for CurrentFile scope, a
current-file override, or marked text; otherwise takes the first
(direction Down) or last (direction Up) element of the scope's resolved
resource list with no emptiness guard.  `none` models the out-of-bounds
QList::first()/last() access on an empty list; `some none` models the
early no-op return; `some (some r)` models opening resource `r`.  (The
cursor-position bookkeeping passed to OpenResourceAndWaitUntilLoaded is
orthogonal to the claim and omitted.) -/
def SetFirstResource (lw : LookWhere)
    (lookWhereCurrentFile markedText : Bool) (resources : List Resource)
    (dir : SearchDirection) : Option (Option Resource) :=
  if isWhereCF lw || lookWhereCurrentFile || markedText then some none
  else
    match (match dir with
           | .down => resources.head?
           | .up => resources.getLast?) with
    | none => none
    | some r => some (some r)

/-- C9: on a corpus scope with no current-file override and no marked text,
SetFirstResource's unguarded first()/last() access is out of bounds
exactly when the scope's resolved resource list is empty; on a non-empty
list it opens the first element for direction Down and the last for
direction Up. -/
theorem setFirstResource_requires_nonempty (lw : LookWhere)
    (lookWhereCurrentFile markedText : Bool) (resources : List Resource)
    (dir : SearchDirection)
    (hcorpus : (isWhereCF lw || lookWhereCurrentFile || markedText) = false) :
    (SetFirstResource lw lookWhereCurrentFile markedText resources dir = none
      ↔ resources = [])
    ∧ (∀ r, SetFirstResource lw lookWhereCurrentFile markedText resources dir
          = some (some r)
        ↔ (match dir with
           | .down => resources.head?
           | .up => resources.getLast?) = some r) := by
  have hne : ¬ ((isWhereCF lw || lookWhereCurrentFile || markedText) = true) := by
    rw [hcorpus]
    simp
  constructor
  · unfold SetFirstResource
    rw [if_neg hne]
    cases dir with
    | down =>
        cases hh : resources.head? with
        | none => simpa using List.head?_eq_none_iff.mp hh
        | some r =>
            simp only [hh]
            constructor
            · intro h; cases h
            · intro h
              rw [h] at hh
              cases hh
    | up =>
        cases hh : resources.getLast? with
        | none => simpa using List.getLast?_eq_none_iff.mp hh
        | some r =>
            simp only [hh]
            constructor
            · intro h; cases h
            · intro h
              rw [h] at hh
              cases hh
  · intro r
    unfold SetFirstResource
    rw [if_neg hne]
    cases dir with
    | down =>
        cases hh : resources.head? with
        | none => simp [hh]
        | some b => simp [hh]
    | up =>
        cases hh : resources.getLast? with
        | none => simp [hh]
        | some b => simp [hh]

/-- Witness for C9 at concrete inputs: the empty Selected-HTML scope gives
the out-of-bounds marker, a singleton scope opens its element. -/
theorem setFirstResource_requires_nonempty_witness :
    SetFirstResource LookWhere.selectedHTML false false [] SearchDirection.down
        = none
    ∧ SetFirstResource LookWhere.selectedHTML false false [⟨3, RType.html⟩]
        SearchDirection.down = some (some ⟨3, RType.html⟩) := by
  have h1 := setFirstResource_requires_nonempty LookWhere.selectedHTML false
    false [] SearchDirection.down (by decide)
  have h2 := setFirstResource_requires_nonempty LookWhere.selectedHTML false
    false [⟨3, RType.html⟩] SearchDirection.down (by decide)
  exact ⟨h1.1.mpr rfl, (h2.2 ⟨3, RType.html⟩).mpr rfl⟩

/-- FindReplace::ReplaceText: an invalid find text or missing Searchable
returns false; otherwise the selected match is replaced (a no-op when no
matching text is selected) and, unless asked to stay in place, `found` is
overwritten with the result of the chained FindNext/FindPrevious, which is
what is returned. -/
def ReplaceText (validFind searchableAvailable : Bool)
    (replacedSelected findResult : Bool) (replaceCurrent : Bool) : Bool :=
  if ¬validFind then false
  else if ¬searchableAvailable then false
  else if ¬replaceCurrent then findResult
  else replacedSelected

/-- FindReplace::ReplaceCurrent: ReplaceText asked to stay in place. -/
def ReplaceCurrent (validFind searchableAvailable : Bool)
    (replacedSelected findResult : Bool) : Bool :=
  ReplaceText validFind searchableAvailable replacedSelected findResult true

/-- C10: for Replace/ReplaceNext/ReplacePrevious (stay-in-place off) the
returned Bool is the chained Find's result, independent of whether a
replacement was performed, while ReplaceCurrent returns whether the
selected match was replaced, independent of any further match. -/
theorem replaceText_returns_find_result
    (validFind savail replacedSelected findResult : Bool) :
    ReplaceText validFind savail replacedSelected findResult false
        = (validFind && savail && findResult)
    ∧ ReplaceCurrent validFind savail replacedSelected findResult
        = (validFind && savail && replacedSelected) := by
  cases validFind <;> cases savail <;> cases replacedSelected <;>
    cases findResult <;> exact ⟨rfl, rfl⟩

end FindReplace

end Sigil
